import Mathlib

set_option autoImplicit false

/-!
Shallow embedding of the `db` package of the drone repository
(`db.go`: `DumpJson`, `RestoreJson`, `GetJson`, `GetJsonDefault`, `SetJson`,
`ErrKeyNotFound`, the `DB`/`Tx` interfaces), together with a model of the
database facade's transactional semantics (`Do`, `Dump`), which are declared
in the `DB` interface but implemented by the Badger adapter.

Go's `encoding/json` is an external dependency; it is modelled structurally:
a byte string either parses as a JSON document or it does not, so raw values
are tagged (`RawVal.json` / `RawVal.junk`) and a serialized top-level object
is a `Wire.doc`.  Keys are modelled as strings (the Go code converts
`[]byte` keys with `string(kv.Key)`).
-/

namespace DB

/-- A JSON document, the value space of Go `encoding/json`
(numbers modelled as integers). -/
inductive Json where
  | null : Json
  | boolean (b : Bool) : Json
  | num (n : Int) : Json
  | str (s : String) : Json
  | arr (elems : List Json) : Json
  | obj (fields : List (String × Json)) : Json

/-- A raw byte value as stored at the `Tx` layer: either bytes that parse as
a JSON document, or bytes that do not (`json.RawMessage` validity). -/
inductive RawVal where
  | json (j : Json) : RawVal
  | junk (s : String) : RawVal

/-- Go `error` values occurring in the `db` package: the `ErrKeyNotFound`
sentinel, `fmt.Errorf("...: %w", err)` wrapping, `encoding/json`
unmarshalling and marshalling failures, and arbitrary caller errors
(`errors.New`). -/
inductive GoErr where
  | keyNotFound : GoErr
  | wrapped (ctx : String) (e : GoErr) : GoErr
  | unmarshalErr (msg : String) : GoErr
  | marshalErr (msg : String) : GoErr
  | userErr (msg : String) : GoErr
deriving DecidableEq

/-- The `db.ErrKeyNotFound` sentinel (src: `var ErrKeyNotFound = errors.New("db: not found")`). -/
def ErrKeyNotFound : GoErr := GoErr.keyNotFound

/-- Model of Go `errors.Is(err, ErrKeyNotFound)`: equality to the sentinel
through the `%w` unwrap chain. -/
def errIsKeyNotFound : GoErr → Bool
  | GoErr.keyNotFound => true
  | GoErr.wrapped _ e => errIsKeyNotFound e
  | _ => false

/-- An entry of the keyspace (src: `type KV struct { Key []byte; Val []byte }`). -/
structure KV where
  key : String
  val : RawVal

/-- The committed keyspace: an association list with the first binding of a
key authoritative (`storeSet` updates in place, so keys stay unique). -/
abbrev Store : Type := List KV

/-- Lookup a key in a store (first match). -/
def storeGet : Store → String → Option RawVal
  | [], _ => none
  | kv :: rest, k => if kv.key = k then some kv.val else storeGet rest k

/-- Update-or-append a binding in a store. -/
def storeSet : Store → String → RawVal → Store
  | [], k, v => [⟨k, v⟩]
  | kv :: rest, k, v => if kv.key = k then ⟨k, v⟩ :: rest else kv :: storeSet rest k v

/-- The state a transaction handle sees: the committed snapshot, the
transaction's own pending writes (checked first by `Get`, giving
read-your-own-writes), and a log of every `Set` call performed. -/
structure TxState where
  committed : Store
  pending : Store
  setLog : List KV

/-- Model of `Tx.Get`: pending writes first, then the committed snapshot; a missing
key yields the not-found sentinel, never an empty value. -/
def txGet (ts : TxState) (k : String) : Except GoErr RawVal :=
  match storeGet ts.pending k with
  | some v => Except.ok v
  | none =>
    match storeGet ts.committed k with
    | some v => Except.ok v
    | none => Except.error ErrKeyNotFound

/-- Model of `Tx.Set`: record the write in the pending overlay and in the log. -/
def txSet (ts : TxState) (k : String) (v : RawVal) : TxState :=
  { ts with pending := storeSet ts.pending k v, setLog := ts.setLog ++ [⟨k, v⟩] }

/-- Deep embedding of a transaction closure: a tree of `Get`/`Set` calls on
the `Tx` handle, each continuing with the call's result, ending in the
closure's return value. -/
inductive TxProg (α : Type) where
  | done (a : α) : TxProg α
  | get (key : String) (k : Except GoErr RawVal → TxProg α) : TxProg α
  | set (key : String) (v : RawVal) (k : Except GoErr Unit → TxProg α) : TxProg α

/-- Run a transaction closure against a transaction state. -/
def txRun {α : Type} : TxProg α → TxState → α × TxState
  | TxProg.done a, ts => (a, ts)
  | TxProg.get key k, ts => txRun (k (txGet ts key)) ts
  | TxProg.set key v k, ts => txRun (k (Except.ok ())) (txSet ts key v)

/-- Apply a transaction's pending writes to the committed store, in order. -/
def commitPending (s : Store) (pending : Store) : Store :=
  pending.foldl (fun acc kv => storeSet acc kv.key kv.val) s

/-- Result of a `Do` call: the returned error (nil = `none`), the store
afterwards, and the `Set` calls the closure performed. -/
structure DoResult where
  err : Option GoErr
  store : Store
  sets : List KV

/-- Modelled from the spec: the database facade's `Do` (§4.2) — the Badger
adapter implementing the `DB` interface is not part of the given sources.
It runs the closure against a consistent view with an empty pending-write
overlay; if the closure returns nil every pending write is committed, and if
it returns an error nothing is committed and the store is unchanged
(conflict retry re-runs the closure from scratch, so a retried attempt is
the same function of the committed store). -/
def Do (s : Store) (work : TxProg (Option GoErr)) : DoResult :=
  let r := txRun work ⟨s, [], []⟩
  match r.1 with
  | none => ⟨none, commitPending s r.2.pending, r.2.setLog⟩
  | some e => ⟨some e, s, r.2.setLog⟩

/-- Modelled from the spec: the facade's `Dump` (§4.2) returns every entry of
the keyspace as a point-in-time snapshot; in the sequential model this is
exactly the committed store and never fails. -/
def Dump (s : Store) : Except GoErr (List KV) := Except.ok s

/-! ## Typed codec layer (`GetJson`, `GetJsonDefault`, `SetJson`) -/

/-- A Go type `T` usable with the generic codec functions: its
`encoding/json` encoding and decoding. -/
structure Codec (α : Type) where
  enc : α → Json
  dec : Json → Except String α

/-- Model of `json.Unmarshal(data, &result)` at type `α`: bytes that are not
JSON fail to parse, otherwise the document is decoded at the type. -/
def rawUnmarshal {α : Type} (c : Codec α) : RawVal → Except GoErr α
  | RawVal.junk _ => Except.error (GoErr.unmarshalErr "invalid character")
  | RawVal.json j =>
    match c.dec j with
    | Except.error m => Except.error (GoErr.unmarshalErr m)
    | Except.ok v => Except.ok v

/-- Source `db.GetJson[T](tx, key)` as a program fragment: `tx.Get([]byte(key))`,
wrapping a `Get` failure as `"get key: %w"`, then `json.Unmarshal`, wrapping
a parse failure as `"unmarshall key val: %w"`; continues with the result. -/
def GetJson {α β : Type} (c : Codec α) (key : String)
    (k : Except GoErr α → TxProg β) : TxProg β :=
  TxProg.get key (fun r =>
    match r with
    | Except.error e => k (Except.error (GoErr.wrapped "get key" e))
    | Except.ok data =>
      match rawUnmarshal c data with
      | Except.error e => k (Except.error (GoErr.wrapped "unmarshall key val" e))
      | Except.ok v => k (Except.ok v))

/-- Source `db.GetJsonDefault[T](tx, key, defaultVal)`: delegates to `GetJson` and
substitutes the default exactly when `errors.Is(err, ErrKeyNotFound)`. -/
def GetJsonDefault {α β : Type} (c : Codec α) (key : String) (defaultVal : α)
    (k : Except GoErr α → TxProg β) : TxProg β :=
  GetJson c key (fun r =>
    match r with
    | Except.error e =>
      if errIsKeyNotFound e then k (Except.ok defaultVal) else k (Except.error e)
    | Except.ok v => k (Except.ok v))

/-- Source `db.SetJson[T](tx, key, val)`: `json.Marshal(val)` (total for a value of
a codec-backed type, so it yields the encoding) then `tx.Set`, wrapping a
`Set` failure as `"set key: %w"`. -/
def SetJson {α β : Type} (c : Codec α) (key : String) (v : α)
    (k : Except GoErr Unit → TxProg β) : TxProg β :=
  TxProg.set key (RawVal.json (c.enc v)) (fun r =>
    match r with
    | Except.error e => k (Except.error (GoErr.wrapped "set key" e))
    | Except.ok _ => k (Except.ok ()))

/-! ## Snapshot serializer (`DumpJson`, `RestoreJson`) -/

/-- A serialized byte stream as `RestoreJson` receives it: either bytes that
parse as a top-level JSON object, or bytes that do not. -/
inductive Wire where
  | doc (fields : List (String × Json)) : Wire
  | malformed (s : String) : Wire

/-- Assignment `m[k] = v` on a Go map modelled as an association list (update the
existing binding, else append). -/
def assocSet {β : Type} : List (String × β) → String → β → List (String × β)
  | [], k, v => [(k, v)]
  | (k0, v0) :: rest, k, v =>
    if k0 = k then (k, v) :: rest else (k0, v0) :: assocSet rest k v

/-- Insert a sequence of bindings into a Go map, in order (later bindings
for the same key overwrite earlier ones). -/
def assocSetAll {β : Type} (init : List (String × β)) (l : List (String × β)) :
    List (String × β) :=
  l.foldl (fun acc p => assocSet acc p.1 p.2) init

/-- The map `out` built by `DumpJson`:
`out := make(map[string]json.RawMessage); for _, kv := range dump { out[string(kv.Key)] = kv.Val }`. -/
def buildOut (dump : List KV) : List (String × RawVal) :=
  assocSetAll [] (dump.map (fun kv => (kv.key, kv.val)))

/-- Model of marshalling one `json.RawMessage` field value: bytes that are
not valid JSON make `json.Marshal` of the enclosing map fail. -/
def rawAsJson : RawVal → Except GoErr Json
  | RawVal.json j => Except.ok j
  | RawVal.junk _ => Except.error (GoErr.marshalErr "json: error calling MarshalJSON")

/-- Marshal the fields of a `map[string]json.RawMessage`: every raw value is
embedded verbatim as already-encoded JSON; the first invalid value fails the
whole marshal. -/
def marshalFields : List (String × RawVal) → Except GoErr (List (String × Json))
  | [] => Except.ok []
  | (k, v) :: rest =>
    match rawAsJson v with
    | Except.error e => Except.error e
    | Except.ok j =>
      match marshalFields rest with
      | Except.error e => Except.error e
      | Except.ok fs => Except.ok ((k, j) :: fs)

/-- Model of `json.Marshal(out)` for `out : map[string]json.RawMessage`:
a single JSON object document with the raw values embedded as-is. -/
def marshalOut (out : List (String × RawVal)) : Except GoErr Wire :=
  match marshalFields out with
  | Except.error e => Except.error e
  | Except.ok fs => Except.ok (Wire.doc fs)

/-- Result of a `DumpJson` call: the returned error (nil = `none`) and the
sequence of `writer.Write` calls performed. -/
structure DumpJsonResult where
  err : Option GoErr
  writes : List Wire

/-- Source `db.DumpJson(ctx, db, writer)`: `db.Dump`, build the map, `json.Marshal`,
then a single `writer.Write`; each failure returns wrapped with its context
(`"dump db: %w"`, `"marshall dump: %w"`, `"write dump: %w"`).  The dump
result and the writer's answer are the call's environment, passed as
arguments. -/
def DumpJson (dumpRes : Except GoErr (List KV)) (writeRes : Option GoErr) :
    DumpJsonResult :=
  match dumpRes with
  | Except.error e => ⟨some (GoErr.wrapped "dump db" e), []⟩
  | Except.ok dump =>
    match marshalOut (buildOut dump) with
    | Except.error e => ⟨some (GoErr.wrapped "marshall dump" e), []⟩
    | Except.ok data =>
      match writeRes with
      | some e => ⟨some (GoErr.wrapped "write dump" e), [data]⟩
      | none => ⟨none, [data]⟩

/-- Model of `json.Unmarshal(data, &raw)` for `raw : map[string]json.RawMessage`:
a parsed object becomes a map (later duplicate keys overwrite earlier ones),
anything else fails. -/
def unmarshalWire : Wire → Except GoErr (List (String × Json))
  | Wire.doc fields => Except.ok (assocSetAll [] fields)
  | Wire.malformed _ => Except.error (GoErr.unmarshalErr "invalid character")

/-- The replay closure of `RestoreJson`: `tx.Set` each pair of the parsed
dump in order, returning the first failure. -/
def restoreProg : List KV → TxProg (Option GoErr)
  | [] => TxProg.done none
  | kv :: rest =>
    TxProg.set kv.key kv.val (fun r =>
      match r with
      | Except.error e => TxProg.done (some e)
      | Except.ok _ => restoreProg rest)

/-- Source `db.RestoreJson(ctx, db, reader)`: `io.ReadAll` (its result passed as the
argument, a failure wrapped as `"read dump: %w"`), `json.Unmarshal` into a
map (a failure wrapped as `"unmarshall dump: %w"`), then one `db.Do`
replaying every pair as a `Set`. -/
def RestoreJson (s : Store) (readRes : Except GoErr Wire) : DoResult :=
  match readRes with
  | Except.error e => ⟨some (GoErr.wrapped "read dump" e), s, []⟩
  | Except.ok w =>
    match unmarshalWire w with
    | Except.error e => ⟨some (GoErr.wrapped "unmarshall dump" e), s, []⟩
    | Except.ok raw =>
      Do s (restoreProg (raw.map (fun p => ⟨p.1, RawVal.json p.2⟩)))

/-! ## Concrete codecs (the structured types exercised by the test suite) -/

/-- Codec for Go `int` (`encoding/json` number). -/
def intCodec : Codec Int :=
  ⟨fun n => Json.num n,
   fun j =>
     match j with
     | Json.num n => Except.ok n
     | _ => Except.error "cannot unmarshal into int"⟩

/-- Codec for Go `bool`. -/
def boolCodec : Codec Bool :=
  ⟨fun b => Json.boolean b,
   fun j =>
     match j with
     | Json.boolean b => Except.ok b
     | _ => Except.error "cannot unmarshal into bool"⟩

/-- Codec for Go `string`. -/
def stringCodec : Codec String :=
  ⟨fun s => Json.str s,
   fun j =>
     match j with
     | Json.str s => Except.ok s
     | _ => Except.error "cannot unmarshal into string"⟩

/-- A nullable pointer `*T`: `nil` encodes as JSON `null`. -/
def optionCodec {α : Type} (c : Codec α) : Codec (Option α) :=
  ⟨fun v =>
     match v with
     | none => Json.null
     | some a => c.enc a,
   fun j =>
     match j with
     | Json.null => Except.ok none
     | _ =>
       match c.dec j with
       | Except.error m => Except.error m
       | Except.ok a => Except.ok (some a)⟩

/-- Decode every element of a JSON array. -/
def decElems {α : Type} (d : Json → Except String α) :
    List Json → Except String (List α)
  | [] => Except.ok []
  | j :: rest =>
    match d j with
    | Except.error m => Except.error m
    | Except.ok v =>
      match decElems d rest with
      | Except.error m => Except.error m
      | Except.ok vs => Except.ok (v :: vs)

/-- A slice `[]T`. -/
def listCodec {α : Type} (c : Codec α) : Codec (List α) :=
  ⟨fun l => Json.arr (l.map c.enc),
   fun j =>
     match j with
     | Json.arr es => decElems c.dec es
     | _ => Except.error "cannot unmarshal into slice"⟩

/-- The test suite's nested struct `S1 { A string; B int }`. -/
structure S1 where
  a : String
  b : Int
deriving DecidableEq

/-- Codec for `S1`. -/
def s1Codec : Codec S1 :=
  ⟨fun v => Json.obj [("a", Json.str v.a), ("b", Json.num v.b)],
   fun j =>
     match j with
     | Json.obj [("a", Json.str a), ("b", Json.num b)] => Except.ok ⟨a, b⟩
     | _ => Except.error "cannot unmarshal into S1"⟩

/-- A composite like the test suite's `S2`: a nested struct, a slice, a
bool, and a nullable pointer. -/
structure S2 where
  s1 : S1
  slice : List Int
  flag : Bool
  nullp : Option Int
deriving DecidableEq

/-- Codec for `S2`, composed from the field codecs. -/
def s2Codec : Codec S2 :=
  ⟨fun v => Json.obj [("struct", s1Codec.enc v.s1),
                      ("slice", (listCodec intCodec).enc v.slice),
                      ("flag", Json.boolean v.flag),
                      ("null", (optionCodec intCodec).enc v.nullp)],
   fun j =>
     match j with
     | Json.obj [("struct", j1), ("slice", j2), ("flag", Json.boolean f), ("null", j4)] =>
       match s1Codec.dec j1, (listCodec intCodec).dec j2, (optionCodec intCodec).dec j4 with
       | Except.ok a, Except.ok b, Except.ok d => Except.ok ⟨a, b, f, d⟩
       | _, _, _ => Except.error "cannot unmarshal into S2"
     | _ => Except.error "cannot unmarshal into S2"⟩

/-- A codec is lossless when decoding inverts encoding — the round-trip
contract of `encoding/json` for the supported types (§4.3). -/
def Lossless {α : Type} (c : Codec α) : Prop :=
  ∀ v : α, c.dec (c.enc v) = Except.ok v

/-- An encoding never produces the JSON `null` document (needed for a
pointer codec: `nil` and a pointer to an encoded-as-null value would
collide, exactly as in Go). -/
def NeverNull {α : Type} (c : Codec α) : Prop :=
  ∀ v : α, c.enc v ≠ Json.null

/-- Extract the parsed document of a raw value (`Json.null` for bytes that
do not parse; only used under the hypothesis that they do). -/
def RawVal.asJson : RawVal → Json
  | RawVal.json j => j
  | RawVal.junk _ => Json.null

/-- Run a closure in a fresh transaction over store `s` and return the
closure's result. -/
def runTx0 {α : Type} (s : Store) (p : TxProg α) : α :=
  (txRun p ⟨s, [], []⟩).1

/-- The value `GetJson` produces from a transaction state, factored out of
its continuation-passing form. -/
def txGetJson {α : Type} (c : Codec α) (ts : TxState) (key : String) :
    Except GoErr α :=
  match txGet ts key with
  | Except.error e => Except.error (GoErr.wrapped "get key" e)
  | Except.ok data =>
    match rawUnmarshal c data with
    | Except.error e => Except.error (GoErr.wrapped "unmarshall key val" e)
    | Except.ok v => Except.ok v

/-- The read-modify-write closure of the concurrent-transactions test: read
the counter with `GetJsonDefault` (default 0), add one, write it back with
`SetJson`. -/
def incrProg (key : String) : TxProg (Option GoErr) :=
  GetJsonDefault intCodec key 0 (fun r =>
    match r with
    | Except.error e => TxProg.done (some e)
    | Except.ok v =>
      SetJson intCodec key (v + 1) (fun r2 =>
        match r2 with
        | Except.error e => TxProg.done (some e)
        | Except.ok _ => TxProg.done none))

/-- Store after `n` increment transactions executed in a serial order, starting from the
empty store (the spec's serializability contract reduces any concurrent
schedule of identical `Do` calls to such an order). -/
def serialIncrs (key : String) : Nat → Store
  | 0 => []
  | n + 1 => (Do (serialIncrs key n) (incrProg key)).store

/-- The `SetJson(tx, key, v)` then `GetJson(tx, key)` sequence of the
round-trip claim, with the `Set` error checked as in the tests. -/
def setThenGet {α : Type} (c : Codec α) (key : String) (v : α) : TxProg (Except GoErr α) :=
  SetJson c key v (fun r =>
    match r with
    | Except.error e => TxProg.done (Except.error e)
    | Except.ok _ => GetJson c key TxProg.done)

/-- The store holding 80 at key `"k"`, committed by a successful `Do` (the
transaction-atomicity test's first step). -/
def committed80 : Store :=
  (Do [] (SetJson intCodec "k" 80 (fun _ => TxProg.done none))).store

/-- The failing closure of the transaction-atomicity test: write 90 at
`"k"`, then return `errors.New("err after set")`. -/
def failingWrite90 : TxProg (Option GoErr) :=
  SetJson intCodec "k" 90 (fun r =>
    match r with
    | Except.error e => TxProg.done (some e)
    | Except.ok _ => TxProg.done (some (GoErr.userErr "err after set")))

/-- A concrete composite value like the test suite's `testSet`. -/
def c4Value : S2 := ⟨⟨"s1_a", 33⟩, [444, 13, 44, -1, 0, 44], true, none⟩

/-- A concrete two-entry keyspace of structured values (backup test shape). -/
def c3Store : Store :=
  [⟨"key3.0", RawVal.json (Json.num 1)⟩,
   ⟨"key3.1", RawVal.json (Json.str "x")⟩]

/-- A concrete keyspace holding a non-string structured value, to exhibit
verbatim (not string-re-encoded) embedding in the dump. -/
def c8Store : Store :=
  [⟨"a", RawVal.json (Json.arr [Json.num 1, Json.num 2])⟩,
   ⟨"b", RawVal.json (Json.obj [("x", Json.boolean true)])⟩]

/-- A keyspace holding bytes that are not valid JSON, on which marshalling
a dump fails. -/
def c10BadStore : List KV := [⟨"bad", RawVal.junk "oops"⟩]

/-! ## Codec round-trip lemmas -/

theorem intCodec_lossless : Lossless intCodec := fun _ => rfl

theorem boolCodec_lossless : Lossless boolCodec := fun _ => rfl

theorem stringCodec_lossless : Lossless stringCodec := fun _ => rfl

theorem intCodec_neverNull : NeverNull intCodec := fun _ h => Json.noConfusion h

theorem optionCodec_lossless {α : Type} (c : Codec α)
    (hc : Lossless c) (hn : NeverNull c) : Lossless (optionCodec c) := by
  intro v
  cases v with
  | none => rfl
  | some a =>
    show (optionCodec c).dec (c.enc a) = Except.ok (some a)
    unfold optionCodec
    cases h : c.enc a with
    | null => exact absurd h (hn a)
    | boolean b => simp only []; rw [← h, hc a]
    | num n => simp only []; rw [← h, hc a]
    | str s => simp only []; rw [← h, hc a]
    | arr es => simp only []; rw [← h, hc a]
    | obj fs => simp only []; rw [← h, hc a]

theorem decElems_map {α : Type} (c : Codec α) (hc : Lossless c) (l : List α) :
    decElems c.dec (l.map c.enc) = Except.ok l := by
  induction l with
  | nil => rfl
  | cons a rest ih => simp [decElems, hc a, ih]

theorem listCodec_lossless {α : Type} (c : Codec α) (hc : Lossless c) :
    Lossless (listCodec c) := by
  intro v
  show decElems c.dec (v.map c.enc) = Except.ok v
  exact decElems_map c hc v

theorem s1Codec_lossless : Lossless s1Codec := fun v => by cases v; rfl

theorem s2Codec_lossless : Lossless s2Codec := by
  intro v
  cases v with
  | mk a b f d =>
    show s2Codec.dec (Json.obj [("struct", s1Codec.enc a),
      ("slice", (listCodec intCodec).enc b), ("flag", Json.boolean f),
      ("null", (optionCodec intCodec).enc d)]) = _
    simp [s2Codec, s1Codec_lossless a,
      listCodec_lossless intCodec intCodec_lossless b,
      optionCodec_lossless intCodec intCodec_lossless intCodec_neverNull d]

/-! ## Store and transaction-run lemmas -/

theorem storeGet_storeSet (s : Store) (k0 k : String) (v : RawVal) :
    storeGet (storeSet s k0 v) k = if k0 = k then some v else storeGet s k := by
  induction s with
  | nil => simp [storeSet, storeGet]
  | cons kv rest ih =>
    by_cases h : kv.key = k0 <;> by_cases hk : k0 = k <;>
      by_cases hkv : kv.key = k <;> simp_all [storeSet, storeGet]

theorem txRun_done {α : Type} (a : α) (ts : TxState) :
    txRun (TxProg.done a) ts = (a, ts) := rfl

theorem txRun_getJson {α β : Type} (c : Codec α) (key : String)
    (k : Except GoErr α → TxProg β) (ts : TxState) :
    txRun (GetJson c key k) ts = txRun (k (txGetJson c ts key)) ts := by
  unfold GetJson txGetJson
  simp only [txRun]
  cases htx : txGet ts key with
  | error e => rfl
  | ok data =>
    dsimp only
    cases hum : rawUnmarshal c data with
    | error e => rfl
    | ok v => rfl

theorem runTx0_getJson {α : Type} (c : Codec α) (s : Store) (key : String) :
    runTx0 s (GetJson c key TxProg.done) = txGetJson c ⟨s, [], []⟩ key := by
  unfold runTx0
  rw [txRun_getJson, txRun_done]

theorem commitPending_cons (s : Store) (kv : KV) (p : List KV) :
    commitPending s (kv :: p) = commitPending (storeSet s kv.key kv.val) p := rfl

theorem txRun_restoreProg (dump : List KV) : ∀ ts : TxState,
    txRun (restoreProg dump) ts =
      (none, ⟨ts.committed, commitPending ts.pending dump, ts.setLog ++ dump⟩) := by
  induction dump with
  | nil => intro ts; simp [restoreProg, txRun, commitPending]
  | cons kv rest ih =>
    intro ts
    show txRun (TxProg.set kv.key kv.val _) ts = _
    simp only [txRun]
    rw [ih]
    simp [txSet, commitPending_cons]

theorem Do_restoreProg (s : Store) (dump : List KV) :
    Do s (restoreProg dump) = ⟨none, commitPending s (commitPending [] dump), dump⟩ := by
  simp only [Do, txRun_restoreProg, List.nil_append]

/-! ## Go-map (association list) lemmas -/

theorem assocSetAll_cons {β : Type} (init : List (String × β)) (p : String × β)
    (rest : List (String × β)) :
    assocSetAll init (p :: rest) = assocSetAll (assocSet init p.1 p.2) rest := rfl

theorem assocSet_missing {β : Type} (m : List (String × β)) (k : String) (v : β)
    (h : k ∉ m.map Prod.fst) : assocSet m k v = m ++ [(k, v)] := by
  induction m with
  | nil => rfl
  | cons p rest ih =>
    obtain ⟨k0, v0⟩ := p
    simp only [List.map_cons, List.mem_cons] at h
    push_neg at h
    simp [assocSet, Ne.symm h.1, ih h.2]

theorem assocSetAll_nodup {β : Type} (l : List (String × β)) :
    ∀ init : List (String × β), (init.map Prod.fst ++ l.map Prod.fst).Nodup →
      assocSetAll init l = init ++ l := by
  induction l with
  | nil => intro init _; simp [assocSetAll]
  | cons p rest ih =>
    intro init h
    obtain ⟨k0, v0⟩ := p
    simp only [List.map_cons] at h
    rw [List.append_cons] at h
    have hk : k0 ∉ init.map Prod.fst := by
      have h0 := (List.nodup_append.mp ((List.nodup_append.mp h).1)).2.2
      intro hmem
      exact h0 hmem (List.mem_singleton_self k0)
    rw [assocSetAll_cons, assocSet_missing init k0 v0 hk,
      ih (init ++ [(k0, v0)]) (by simpa using h)]
    simp

theorem storeSet_missing (s : Store) (k : String) (v : RawVal)
    (h : k ∉ s.map KV.key) : storeSet s k v = s ++ [⟨k, v⟩] := by
  induction s with
  | nil => rfl
  | cons kv rest ih =>
    simp only [List.map_cons, List.mem_cons] at h
    push_neg at h
    simp [storeSet, Ne.symm h.1, ih h.2]

theorem commitPending_nodup (p : List KV) :
    ∀ s : Store, (s.map KV.key ++ p.map KV.key).Nodup → commitPending s p = s ++ p := by
  induction p with
  | nil => intro s _; simp [commitPending]
  | cons kv rest ih =>
    intro s h
    simp only [List.map_cons] at h
    rw [List.append_cons] at h
    have hk : kv.key ∉ s.map KV.key := by
      have h0 := (List.nodup_append.mp ((List.nodup_append.mp h).1)).2.2
      intro hmem
      exact h0 hmem (List.mem_singleton_self kv.key)
    have hih := ih (s ++ [(⟨kv.key, kv.val⟩ : KV)]) (by simpa using h)
    rw [commitPending_cons, storeSet_missing s kv.key kv.val hk, hih]
    simp

/-! ## Marshalling lemmas -/

theorem marshalFields_valid (s : Store)
    (h : ∀ kv ∈ s, kv.val = RawVal.json kv.val.asJson) :
    marshalFields (s.map (fun kv => (kv.key, kv.val))) =
      Except.ok (s.map (fun kv => (kv.key, kv.val.asJson))) := by
  induction s with
  | nil => rfl
  | cons kv rest ih =>
    have hh := h kv (List.mem_cons_self kv rest)
    simp only [List.map_cons, marshalFields]
    rw [hh]
    simp [rawAsJson, RawVal.asJson, ih (fun x hx => h x (List.mem_cons_of_mem kv hx))]

theorem mapBack_valid (s : Store)
    (h : ∀ kv ∈ s, kv.val = RawVal.json kv.val.asJson) :
    (s.map (fun kv => (kv.key, kv.val.asJson))).map
        (fun p => (⟨p.1, RawVal.json p.2⟩ : KV)) = s := by
  induction s with
  | nil => rfl
  | cons kv rest ih =>
    have hh := h kv (List.mem_cons_self kv rest)
    simp only [List.map_cons, List.cons.injEq]
    constructor
    · exact congrArg (fun v => KV.mk kv.key v) hh.symm
    · exact ih (fun x hx => h x (List.mem_cons_of_mem kv hx))

/-! ## Increment-transaction lemmas -/

theorem Do_incr_empty (key : String) :
    Do [] (incrProg key) =
      ⟨none, [⟨key, RawVal.json (Json.num 1)⟩], [⟨key, RawVal.json (Json.num 1)⟩]⟩ := rfl

theorem Do_incr_step (key : String) (m : Int) :
    Do [⟨key, RawVal.json (Json.num m)⟩] (incrProg key) =
      ⟨none, [⟨key, RawVal.json (Json.num (m + 1))⟩],
       [⟨key, RawVal.json (Json.num (m + 1))⟩]⟩ := by
  simp [Do, incrProg, GetJsonDefault, GetJson, SetJson, txRun, txGet, txSet,
    storeGet, storeSet, rawUnmarshal, intCodec, commitPending, errIsKeyNotFound,
    ErrKeyNotFound]

theorem serialIncrs_succ (key : String) : ∀ n : Nat,
    serialIncrs key (n + 1) = [⟨key, RawVal.json (Json.num ((n : Int) + 1))⟩] := by
  intro n
  induction n with
  | zero =>
    show (Do [] (incrProg key)).store = _
    rw [Do_incr_empty]
    norm_num
  | succ m ih =>
    show (Do (serialIncrs key (m + 1)) (incrProg key)).store = _
    rw [ih, Do_incr_step]
    have : ((m + 1 : Nat) : Int) + 1 = (m : Int) + 1 + 1 := by push_cast; ring
    rw [this]

/-! ## Dump / restore characterization -/

theorem dumpJson_valid (s : Store) (h1 : (s.map KV.key).Nodup)
    (h2 : ∀ kv ∈ s, kv.val = RawVal.json kv.val.asJson) :
    DumpJson (Dump s) none =
      ⟨none, [Wire.doc (s.map (fun kv => (kv.key, kv.val.asJson)))]⟩ := by
  have hpre : ((([] : List (String × RawVal)).map Prod.fst) ++
      ((s.map (fun kv => (kv.key, kv.val))).map Prod.fst)).Nodup := by
    simpa [List.map_map, Function.comp_def] using h1
  have hb : buildOut s = s.map (fun kv => (kv.key, kv.val)) := by
    unfold buildOut
    rw [assocSetAll_nodup _ [] hpre]
    simp
  simp only [Dump, DumpJson, marshalOut, hb, marshalFields_valid s h2]

theorem restoreJson_valid (s : Store) (h1 : (s.map KV.key).Nodup)
    (h2 : ∀ kv ∈ s, kv.val = RawVal.json kv.val.asJson) :
    RestoreJson [] (Except.ok (Wire.doc (s.map (fun kv => (kv.key, kv.val.asJson))))) =
      ⟨none, s, s⟩ := by
  have hfk : ((s.map (fun kv => (kv.key, kv.val.asJson))).map Prod.fst) = s.map KV.key := by
    simp [List.map_map, Function.comp_def]
  have hded : assocSetAll [] (s.map (fun kv => (kv.key, kv.val.asJson))) =
      s.map (fun kv => (kv.key, kv.val.asJson)) := by
    rw [assocSetAll_nodup _ [] (by simpa [hfk] using h1)]
    simp
  have hmap : (s.map (fun kv => (kv.key, kv.val.asJson))).map
      (fun p => (⟨p.1, RawVal.json p.2⟩ : KV)) = s := mapBack_valid s h2
  have hcommit : commitPending [] s = s := commitPending_nodup s [] (by simpa using h1)
  simp only [RestoreJson, unmarshalWire, hded, hmap, Do_restoreProg, hcommit]

/-! ## Claim theorems -/

/-- C1: if a transaction closure run via `Do` returns a non-nil error (for
example after performing a `Set`), none of its writes are committed — the
store is unchanged, so any subsequent transaction still reads, for every
key, exactly the previously committed value. -/
theorem do_failed_transaction_invisible (s : Store) (work : TxProg (Option GoErr))
    (e : GoErr) (h : (Do s work).err = some e) :
    (Do s work).store = s ∧
    ∀ key, storeGet (Do s work).store key = storeGet s key := by
  simp only [Do] at h ⊢
  cases hr : (txRun work ⟨s, [], []⟩).1 with
  | none =>
    rw [hr] at h
    exact Option.noConfusion h
  | some e2 => exact ⟨rfl, fun key => rfl⟩

/-- Witness for C1 at the test scenario: after committing 80 at key `"k"`,
the failing closure that writes 90 and returns `errors.New("err after set")`
leaves `"k"` reading 80. -/
theorem do_failed_transaction_invisible_witness :
    (Do committed80 failingWrite90).err = some (GoErr.userErr "err after set") ∧
    (Do committed80 failingWrite90).store = committed80 ∧
    storeGet (Do committed80 failingWrite90).store "k" =
      some (RawVal.json (Json.num 80)) := by
  have h := do_failed_transaction_invisible committed80 failingWrite90
    (GoErr.userErr "err after set") rfl
  refine ⟨rfl, h.1, ?_⟩
  rw [h.1]
  rfl

/-- C2: in the serial order the spec's serializability contract reduces any
concurrent schedule of identical increment transactions to, every one of
`n + 1` read-increment-write transactions (read via `GetJsonDefault` with
default 0, write back via `SetJson`) completes without error, and a
subsequent `GetJson` of the counter returns exactly `n + 1` — no lost
updates (with 10000 transactions the counter reads exactly 10000). -/
theorem serial_increments_exact_count (key : String) (n : Nat) :
    (Do (serialIncrs key n) (incrProg key)).err = none ∧
    runTx0 (serialIncrs key (n + 1)) (GetJson intCodec key TxProg.done) =
      Except.ok ((n : Int) + 1) := by
  constructor
  · cases n with
    | zero =>
      show (Do [] (incrProg key)).err = none
      rw [Do_incr_empty]
    | succ m => rw [serialIncrs_succ key m, Do_incr_step]
  · rw [serialIncrs_succ key n, runTx0_getJson]
    unfold txGetJson txGet
    simp [storeGet, rawUnmarshal, intCodec]

/-- C3: exporting a keyspace (unique keys, every value the stored encoding
of a structured document — including the empty keyspace) with `DumpJson`
and importing the written stream into a fresh empty store with
`RestoreJson` reproduces exactly the same entries. -/
theorem dump_restore_roundtrip (s : Store) (h1 : (s.map KV.key).Nodup)
    (h2 : ∀ kv ∈ s, kv.val = RawVal.json kv.val.asJson) :
    ∃ w : Wire,
      (DumpJson (Dump s) none).err = none ∧
      (DumpJson (Dump s) none).writes = [w] ∧
      (RestoreJson [] (Except.ok w)).err = none ∧
      (RestoreJson [] (Except.ok w)).store = s := by
  refine ⟨Wire.doc (s.map (fun kv => (kv.key, kv.val.asJson))), ?_, ?_, ?_, ?_⟩
  · rw [dumpJson_valid s h1 h2]
  · rw [dumpJson_valid s h1 h2]
  · rw [restoreJson_valid s h1 h2]
  · rw [restoreJson_valid s h1 h2]

/-- Witness for C3 at a concrete two-entry keyspace. -/
theorem dump_restore_roundtrip_witness :
    ((c3Store.map KV.key).Nodup ∧
      ∀ kv ∈ c3Store, kv.val = RawVal.json kv.val.asJson) ∧
    ∃ w : Wire,
      (DumpJson (Dump c3Store) none).err = none ∧
      (DumpJson (Dump c3Store) none).writes = [w] ∧
      (RestoreJson [] (Except.ok w)).err = none ∧
      (RestoreJson [] (Except.ok w)).store = c3Store := by
  have h1 : (c3Store.map KV.key).Nodup := by
    simp [c3Store]
  have h2 : ∀ kv ∈ c3Store, kv.val = RawVal.json kv.val.asJson := by
    intro kv hkv
    simp [c3Store] at hkv
    rcases hkv with rfl | rfl <;> rfl
  exact ⟨⟨h1, h2⟩, dump_restore_roundtrip c3Store h1 h2⟩

/-- C4: for every codec-backed structured type whose `encoding/json` codec
round-trips (the contract for the supported types: composites, collections,
nullable pointers, booleans, numbers, timestamps), `SetJson(tx, key, v)`
followed by `GetJson(tx, key)` in the same transaction returns exactly `v`,
from any transaction state. -/
theorem setJson_getJson_roundtrip {α : Type} (c : Codec α) (hc : Lossless c)
    (ts : TxState) (key : String) (v : α) :
    (txRun (setThenGet c key v) ts).1 = Except.ok v := by
  unfold setThenGet SetJson
  simp only [txRun]
  have hget : txGet (txSet ts key (RawVal.json (c.enc v))) key =
      Except.ok (RawVal.json (c.enc v)) := by
    unfold txGet txSet
    simp [storeGet_storeSet]
  rw [hget]
  simp [txRun, rawUnmarshal, hc v]

/-- Witness for C4: a nested composite (struct containing a struct, a slice,
a bool, and a nil pointer) written and read back at `"key2"`. -/
theorem setJson_getJson_roundtrip_witness :
    Lossless s2Codec ∧
    (txRun (setThenGet s2Codec "key2" c4Value) ⟨[], [], []⟩).1 = Except.ok c4Value :=
  ⟨s2Codec_lossless,
   setJson_getJson_roundtrip s2Codec s2Codec_lossless ⟨[], [], []⟩ "key2" c4Value⟩

/-- C5: `GetJson` on a key with no prior successful `Set` fails with the
`ErrKeyNotFound` sentinel (kind-matchable via `errors.Is` through the
wrapping, and distinct from deserialization and marshalling failures) and
returns no value at all — in particular never a zero-length one. -/
theorem getJson_missing_key_not_found {α : Type} (c : Codec α) (s : Store)
    (key : String) (h : storeGet s key = none) :
    runTx0 s (GetJson c key TxProg.done) =
      (Except.error (GoErr.wrapped "get key" ErrKeyNotFound) : Except GoErr α) ∧
    errIsKeyNotFound (GoErr.wrapped "get key" ErrKeyNotFound) = true ∧
    (∀ m, errIsKeyNotFound (GoErr.unmarshalErr m) = false) ∧
    (∀ m, errIsKeyNotFound (GoErr.marshalErr m) = false) := by
  refine ⟨?_, rfl, fun m => rfl, fun m => rfl⟩
  rw [runTx0_getJson]
  unfold txGetJson txGet
  simp [storeGet, h]

/-- Witness for C5: reading `"key1"` from the empty store. -/
theorem getJson_missing_key_not_found_witness :
    storeGet ([] : Store) "key1" = none ∧
    runTx0 [] (GetJson intCodec "key1" TxProg.done) =
      (Except.error (GoErr.wrapped "get key" ErrKeyNotFound) : Except GoErr Int) :=
  ⟨rfl, (getJson_missing_key_not_found intCodec [] "key1" rfl).1⟩

/-- C6: `GetJsonDefault` returns the default with no error exactly when
`GetJson` would fail with the not-found sentinel, and otherwise behaves
exactly like `GetJson` — a present key returns the decoded value and every
non-sentinel failure propagates. -/
theorem getJsonDefault_spec {α : Type} (c : Codec α) (s : Store) (key : String) (d : α) :
    runTx0 s (GetJsonDefault c key d TxProg.done) =
      match runTx0 s (GetJson c key TxProg.done) with
      | Except.error e => if errIsKeyNotFound e then Except.ok d else Except.error e
      | Except.ok v => Except.ok v := by
  rw [runTx0_getJson]
  unfold GetJsonDefault runTx0
  rw [txRun_getJson]
  cases hx : txGetJson c (⟨s, [], []⟩ : TxState) key with
  | error e =>
    dsimp only
    by_cases hke : errIsKeyNotFound e <;> simp [hke, txRun]
  | ok v => simp [txRun]

/-- C7: `RestoreJson` parses the whole input before writing: a read failure
or malformed input returns a wrapped error with the store untouched and no
`Set` ever attempted, while a successful parse replays exactly the parsed
(key, value) pairs as `Set`s inside one single `Do` transaction, which
succeeds. -/
theorem restoreJson_parse_then_apply (s : Store) (e : GoErr) (b : String)
    (fields : List (String × Json)) :
    RestoreJson s (Except.error e) = ⟨some (GoErr.wrapped "read dump" e), s, []⟩ ∧
    RestoreJson s (Except.ok (Wire.malformed b)) =
      ⟨some (GoErr.wrapped "unmarshall dump" (GoErr.unmarshalErr "invalid character")),
       s, []⟩ ∧
    RestoreJson s (Except.ok (Wire.doc fields)) =
      Do s (restoreProg ((assocSetAll [] fields).map
        (fun p => (⟨p.1, RawVal.json p.2⟩ : KV)))) ∧
    (RestoreJson s (Except.ok (Wire.doc fields))).sets =
      (assocSetAll [] fields).map (fun p => (⟨p.1, RawVal.json p.2⟩ : KV)) ∧
    (RestoreJson s (Except.ok (Wire.doc fields))).err = none := by
  refine ⟨rfl, rfl, rfl, ?_, ?_⟩
  · show (Do s (restoreProg _)).sets = _
    rw [Do_restoreProg]
  · show (Do s (restoreProg _)).err = none
    rw [Do_restoreProg]

/-- C8: `DumpJson` writes one single JSON object whose top-level keys are
the entries' keys read as text and whose values are the entries' stored
bytes embedded verbatim as their already-parsed documents — not re-encoded
as JSON strings. -/
theorem dumpJson_doc_shape (s : Store) (h1 : (s.map KV.key).Nodup)
    (h2 : ∀ kv ∈ s, kv.val = RawVal.json kv.val.asJson) :
    (DumpJson (Dump s) none).writes =
      [Wire.doc (s.map (fun kv => (kv.key, kv.val.asJson)))] ∧
    (DumpJson (Dump s) none).err = none := by
  rw [dumpJson_valid s h1 h2]
  exact ⟨rfl, rfl⟩

/-- Witness for C8: a keyspace holding an array and an object value; the
dumped document embeds those documents themselves. -/
theorem dumpJson_doc_shape_witness :
    ((c8Store.map KV.key).Nodup ∧
      ∀ kv ∈ c8Store, kv.val = RawVal.json kv.val.asJson) ∧
    (DumpJson (Dump c8Store) none).writes =
      [Wire.doc [("a", Json.arr [Json.num 1, Json.num 2]),
                 ("b", Json.obj [("x", Json.boolean true)])]] := by
  have h1 : (c8Store.map KV.key).Nodup := by simp [c8Store]
  have h2 : ∀ kv ∈ c8Store, kv.val = RawVal.json kv.val.asJson := by
    intro kv hkv
    simp [c8Store] at hkv
    rcases hkv with rfl | rfl <;> rfl
  exact ⟨⟨h1, h2⟩, (dumpJson_doc_shape c8Store h1 h2).1⟩

/-- C9: for a missing key `GetJson` returns a wrapped error — context text
around the sentinel, not the bare sentinel value — and the wrapping
preserves kind-matching: `errors.Is(err, ErrKeyNotFound)` still holds,
which is what makes `GetJsonDefault`'s not-found check work. -/
theorem getJson_wrapped_sentinel {α : Type} (c : Codec α) (s : Store)
    (key : String) (h : storeGet s key = none) :
    runTx0 s (GetJson c key TxProg.done) =
      (Except.error (GoErr.wrapped "get key" ErrKeyNotFound) : Except GoErr α) ∧
    GoErr.wrapped "get key" ErrKeyNotFound ≠ ErrKeyNotFound ∧
    errIsKeyNotFound (GoErr.wrapped "get key" ErrKeyNotFound) = true := by
  refine ⟨?_, by decide, rfl⟩
  rw [runTx0_getJson]
  unfold txGetJson txGet
  simp [storeGet, h]

/-- Witness for C9: reading the missing key `"key5"` (bool-typed) from a
store holding an unrelated entry. -/
theorem getJson_wrapped_sentinel_witness :
    storeGet [(⟨"other", RawVal.json Json.null⟩ : KV)] "key5" = none ∧
    runTx0 [(⟨"other", RawVal.json Json.null⟩ : KV)]
        (GetJson boolCodec "key5" TxProg.done) =
      (Except.error (GoErr.wrapped "get key" ErrKeyNotFound) : Except GoErr Bool) := by
  have h : storeGet [(⟨"other", RawVal.json Json.null⟩ : KV)] "key5" = none := by
    simp [storeGet]
  exact ⟨h,
    (getJson_wrapped_sentinel boolCodec [⟨"other", RawVal.json Json.null⟩] "key5" h).1⟩

/-- C10: `DumpJson` writes to the writer at most once, and only after both
the store dump and the JSON marshalling succeeded: a dump failure, or a
stored value that is not valid JSON (failing the marshal), returns an error
with zero writes performed. -/
theorem dumpJson_premature_write_free (dumpRes : Except GoErr (List KV))
    (writeRes : Option GoErr) :
    (DumpJson dumpRes writeRes).writes.length ≤ 1 ∧
    (∀ e, dumpRes = Except.error e →
      DumpJson dumpRes writeRes = ⟨some (GoErr.wrapped "dump db" e), []⟩) ∧
    (∀ dump e, dumpRes = Except.ok dump →
      marshalOut (buildOut dump) = Except.error e →
      DumpJson dumpRes writeRes = ⟨some (GoErr.wrapped "marshall dump" e), []⟩) ∧
    ((DumpJson dumpRes writeRes).writes ≠ [] →
      ∃ dump w, dumpRes = Except.ok dump ∧
        marshalOut (buildOut dump) = Except.ok w ∧
        (DumpJson dumpRes writeRes).writes = [w]) := by
  cases dumpRes with
  | error e0 =>
    refine ⟨by simp [DumpJson], fun e he => ?_, fun dump e hd _ => Except.noConfusion hd, fun hw => absurd rfl hw⟩
    cases he
    rfl
  | ok dump0 =>
    cases hm : marshalOut (buildOut dump0) with
    | error e1 =>
      refine ⟨?_, fun e he => Except.noConfusion he, ?_, ?_⟩
      · simp [DumpJson, hm]
      · intro dump e hd hm2
        cases hd
        rw [hm] at hm2
        cases hm2
        simp [DumpJson, hm]
      · intro hw
        exact absurd (by simp [DumpJson, hm]) hw
    | ok w0 =>
      have hw : (DumpJson (Except.ok dump0) writeRes).writes = [w0] := by
        cases writeRes <;> simp [DumpJson, hm]
      refine ⟨by rw [hw]; exact Nat.le_refl 1, fun e he => Except.noConfusion he, ?_, ?_⟩
      · intro dump e hd hm2
        cases hd
        rw [hm] at hm2
        cases hm2
      · intro _
        exact ⟨dump0, w0, rfl, hm, hw⟩

/-- Witness for C10: a store holding non-JSON bytes makes the marshal fail,
and `DumpJson` returns the wrapped marshal error with zero writes. -/
theorem dumpJson_premature_write_free_witness :
    DumpJson (Except.ok c10BadStore) none =
      ⟨some (GoErr.wrapped "marshall dump"
        (GoErr.marshalErr "json: error calling MarshalJSON")), []⟩ :=
  (dumpJson_premature_write_free (Except.ok c10BadStore) none).2.2.1 c10BadStore
    (GoErr.marshalErr "json: error calling MarshalJSON") rfl rfl

end DB
